import Mathlib

/-
Verification of the KPI realization aggregator, the core logic of the
realization service (blueprint/infra/backend/services/realization/main.py,
endpoint handler process_realization).

Numbers (telemetry values, targets, means, variances) are modelled as
rationals; strings as String; absent JSON fields as Option.none.  The
Python dicts used by the handler are modelled as association lists that
mirror their construction order exactly:

  - targets is a dict comprehension over valueCommit kpiTargets keyed by
    kpiId, so a later entry with the same kpiId overwrites an earlier one;
    lookupTarget folds left over the list keeping the last match, exactly
    as the comprehension does.
  - aggregates is built by setdefault-and-append, which keeps keys in
    first-observed order and appends every sample value (duplicates
    included) to the list of its key; addSample is one loop step.

The result loop is modelled by a left fold (processGroup) carrying the
growing result list together with the renewal flag, as the Python loop
does.
-/

namespace ValueCanvas

structure Target where
  kpiId : String
  targetValue : ℚ
  unit : String
  deriving Repr, DecidableEq

structure Telemetry where
  kpiId : String
  timestamp : String
  value : ℚ
  deriving Repr, DecidableEq

structure ValueCommit where
  id : String
  kpiTargets : List Target
  deriving Repr, DecidableEq

structure KpiResult where
  kpiId : String
  actualValue : ℚ
  targetValue : Option ℚ
  unit : Option String
  variance : Option ℚ
  deriving Repr, DecidableEq

structure RealizationReport where
  id : String
  valueCommitId : String
  generatedAt : String
  results : List KpiResult
  deriving Repr, DecidableEq

structure RenewalAlert where
  status : String
  message : Option String
  deriving Repr, DecidableEq

/-- Model of the dict comprehension building targets keyed by kpiId,
followed by a get: iterating left to right, a later entry with the same
key overwrites an earlier one, so the lookup yields the last matching
target. -/
def lookupTarget (ts : List Target) (k : String) : Option Target :=
  ts.foldl (fun acc t => if t.kpiId = k then some t else acc) none

/-- One iteration of the telemetry loop:
aggregates.setdefault(kpiId, emptyList).append(value).  If the key is
already present its value list is extended at the end; otherwise a new
singleton entry is appended, keeping keys in first-observed order. -/
def addSample (acc : List (String × List ℚ)) (t : Telemetry) :
    List (String × List ℚ) :=
  if acc.any (fun p => p.1 == t.kpiId) then
    acc.map (fun p => if p.1 = t.kpiId then (p.1, p.2 ++ [t.value]) else p)
  else
    acc ++ [(t.kpiId, [t.value])]

/-- The aggregates dict after the whole telemetry loop. -/
def aggregates (samples : List Telemetry) : List (String × List ℚ) :=
  samples.foldl addSample []

/-- Body of the loop over aggregates.items(): compute the mean of the
group, look up targetValue and unit, compute the variance when a target
exists, raise the renewal flag on negative variance, and append the
result row. -/
def processGroup (targets : List Target) (acc : List KpiResult × Bool)
    (g : String × List ℚ) : List KpiResult × Bool :=
  let actual : ℚ := g.2.sum / (g.2.length : ℚ)
  let target : Option ℚ := (lookupTarget targets g.1).map Target.targetValue
  let unit : Option String := (lookupTarget targets g.1).map Target.unit
  let variance : Option ℚ := target.map (fun tv => actual - tv)
  let flag : Bool :=
    match variance with
    | some v => if v < 0 then true else acc.2
    | none => acc.2
  (acc.1 ++ [⟨g.1, actual, target, unit, variance⟩], flag)

/-- Shallow embedding of the handler process_realization: builds the
target index, groups telemetry, folds the result loop, and assembles the
report and the renewal alert. -/
def process_realization (vc : ValueCommit) (telemetryData : List Telemetry) :
    RealizationReport × RenewalAlert :=
  let rf := (aggregates telemetryData).foldl (processGroup vc.kpiTargets)
    ([], false)
  let report : RealizationReport :=
    ⟨"auto-generated", vc.id, "2025-11-17T00:00:00Z", rf.1⟩
  let alert : RenewalAlert :=
    if rf.2 then
      ⟨"risk", some "Value delivery below target for one or more KPIs"⟩
    else ⟨"ok", none⟩
  (report, alert)

/-- The result row the loop body builds for one group. -/
def resultOf (targets : List Target) (g : String × List ℚ) : KpiResult :=
  ⟨g.1, g.2.sum / (g.2.length : ℚ),
    (lookupTarget targets g.1).map Target.targetValue,
    (lookupTarget targets g.1).map Target.unit,
    ((lookupTarget targets g.1).map Target.targetValue).map
      (fun tv => g.2.sum / (g.2.length : ℚ) - tv)⟩

/-- Whether one group raises the renewal flag. -/
def riskOf (targets : List Target) (g : String × List ℚ) : Bool :=
  match (resultOf targets g).variance with
  | some v => decide (v < 0)
  | none => false

@[simp] theorem resultOf_kpiId (targets : List Target) (g : String × List ℚ) :
    (resultOf targets g).kpiId = g.1 := rfl

@[simp] theorem resultOf_actualValue (targets : List Target)
    (g : String × List ℚ) :
    (resultOf targets g).actualValue = g.2.sum / (g.2.length : ℚ) := rfl

@[simp] theorem resultOf_targetValue (targets : List Target)
    (g : String × List ℚ) :
    (resultOf targets g).targetValue =
      (lookupTarget targets g.1).map Target.targetValue := rfl

@[simp] theorem resultOf_unit (targets : List Target) (g : String × List ℚ) :
    (resultOf targets g).unit =
      (lookupTarget targets g.1).map Target.unit := rfl

@[simp] theorem resultOf_variance (targets : List Target)
    (g : String × List ℚ) :
    (resultOf targets g).variance =
      ((lookupTarget targets g.1).map Target.targetValue).map
        (fun tv => g.2.sum / (g.2.length : ℚ) - tv) := rfl

theorem processGroup_eq (targets : List Target) (acc : List KpiResult × Bool)
    (g : String × List ℚ) :
    processGroup targets acc g =
      (acc.1 ++ [resultOf targets g], acc.2 || riskOf targets g) := by
  unfold processGroup riskOf
  cases h : (lookupTarget targets g.1).map Target.targetValue with
  | none => simp [h, resultOf]
  | some tv =>
    simp only [h, Option.map_some, resultOf_variance]
    refine Prod.ext ?_ ?_
    · simp [resultOf, h]
    · by_cases hv : g.2.sum / (g.2.length : ℚ) - tv < 0 <;> simp [hv]

theorem foldl_processGroup (targets : List Target)
    (l : List (String × List ℚ)) (rs : List KpiResult) (b : Bool) :
    l.foldl (processGroup targets) (rs, b) =
      (rs ++ l.map (resultOf targets), b || l.any (riskOf targets)) := by
  induction l generalizing rs b with
  | nil => simp
  | cons g l ih =>
    rw [List.foldl_cons, processGroup_eq, ih]
    simp [Bool.or_assoc]

/-- The report results are the group rows in group order. -/
theorem results_eq (vc : ValueCommit) (s : List Telemetry) :
    (process_realization vc s).1.results =
      (aggregates s).map (resultOf vc.kpiTargets) := by
  unfold process_realization
  rw [foldl_processGroup]
  simp

/-- The alert is determined by whether some group raises the flag. -/
theorem alert_eq (vc : ValueCommit) (s : List Telemetry) :
    (process_realization vc s).2 =
      if (aggregates s).any (riskOf vc.kpiTargets) then
        (⟨"risk", some "Value delivery below target for one or more KPIs"⟩ :
          RenewalAlert)
      else ⟨"ok", none⟩ := by
  unfold process_realization
  rw [foldl_processGroup]
  cases h : (aggregates s).any (riskOf vc.kpiTargets) <;> simp [h]

/-- Key order of a dict built by setdefault: a known key changes nothing,
a new key goes to the end. -/
def insertKey (acc : List String) (k : String) : List String :=
  if k ∈ acc then acc else acc ++ [k]

/-- The keys of the aggregates dict: each kpiId once, at its first
occurrence in the telemetry sequence. -/
def firstKeys (l : List String) : List String := l.foldl insertKey []

/-- Lookup of the first entry with the given key in an association list. -/
def findValues (k : String) : List (String × List ℚ) → Option (List ℚ)
  | [] => none
  | p :: rest => if p.1 = k then some p.2 else findValues k rest

/-- Extend an optional accumulator list: absent stays absent only when
nothing is added. -/
def optAppend (o : Option (List ℚ)) (w : List ℚ) : Option (List ℚ) :=
  match o, w with
  | none, [] => none
  | none, w => some w
  | some v, w => some (v ++ w)

@[simp] theorem optAppend_nil (o : Option (List ℚ)) : optAppend o [] = o := by
  cases o <;> simp [optAppend]

theorem optAppend_snoc (o : Option (List ℚ)) (x : ℚ) (w : List ℚ) :
    optAppend (optAppend o [x]) w = optAppend o (x :: w) := by
  cases o <;> cases w <;> simp [optAppend]

theorem map_fst_update (acc : List (String × List ℚ)) (c : String) (x : ℚ) :
    (acc.map (fun p => if p.1 = c then (p.1, p.2 ++ [x]) else p)).map
        Prod.fst = acc.map Prod.fst := by
  induction acc with
  | nil => rfl
  | cons p rest ih =>
    by_cases h : p.1 = c <;> simp [h, ih]

theorem any_key_iff (acc : List (String × List ℚ)) (c : String) :
    acc.any (fun p => p.1 == c) = true ↔ c ∈ acc.map Prod.fst := by
  simp [List.any_eq_true, List.mem_map]

theorem keys_addSample (acc : List (String × List ℚ)) (t : Telemetry) :
    (addSample acc t).map Prod.fst =
      insertKey (acc.map Prod.fst) t.kpiId := by
  unfold addSample insertKey
  by_cases h : t.kpiId ∈ acc.map Prod.fst
  · rw [if_pos ((any_key_iff acc t.kpiId).2 h), if_pos h, map_fst_update]
  · rw [if_neg (fun hc => h ((any_key_iff acc t.kpiId).1 hc)), if_neg h]
    simp

theorem keys_foldl_addSample (s : List Telemetry)
    (acc : List (String × List ℚ)) :
    (s.foldl addSample acc).map Prod.fst =
      (s.map Telemetry.kpiId).foldl insertKey (acc.map Prod.fst) := by
  induction s generalizing acc with
  | nil => rfl
  | cons t ts ih => simp [ih, keys_addSample]

/-- The aggregates keys are the telemetry kpiIds in first-observed order. -/
theorem keys_aggregates (s : List Telemetry) :
    (aggregates s).map Prod.fst = firstKeys (s.map Telemetry.kpiId) :=
  keys_foldl_addSample s []

theorem mem_insertKey (a : String) (acc : List String) (k : String) :
    a ∈ insertKey acc k ↔ a ∈ acc ∨ a = k := by
  unfold insertKey
  by_cases h : k ∈ acc
  · simp only [if_pos h]
    exact ⟨Or.inl, fun hc => hc.elim id (fun he => he ▸ h)⟩
  · simp [if_neg h]

theorem mem_foldl_insertKey (a : String) (l : List String)
    (acc : List String) :
    a ∈ l.foldl insertKey acc ↔ a ∈ acc ∨ a ∈ l := by
  induction l generalizing acc with
  | nil => simp
  | cons k ks ih =>
    rw [List.foldl_cons, ih, mem_insertKey]
    simp [or_assoc]

theorem mem_firstKeys (a : String) (l : List String) :
    a ∈ firstKeys l ↔ a ∈ l := by
  rw [firstKeys, mem_foldl_insertKey]
  simp

theorem nodup_insertKey (acc : List String) (k : String)
    (h : acc.Nodup) : (insertKey acc k).Nodup := by
  unfold insertKey
  by_cases hk : k ∈ acc
  · simpa [hk]
  · rw [if_neg hk]
    exact List.Nodup.append h (List.nodup_singleton k)
      (List.disjoint_singleton.2 hk)

theorem nodup_foldl_insertKey (l : List String) (acc : List String)
    (h : acc.Nodup) : (l.foldl insertKey acc).Nodup := by
  induction l generalizing acc with
  | nil => exact h
  | cons k ks ih => exact ih _ (nodup_insertKey acc k h)

theorem nodup_firstKeys (l : List String) : (firstKeys l).Nodup :=
  nodup_foldl_insertKey l [] List.nodup_nil

theorem findValues_update (acc : List (String × List ℚ)) (c k : String)
    (x : ℚ) :
    findValues k (acc.map (fun p => if p.1 = c then (p.1, p.2 ++ [x])
        else p)) =
      if c = k then (findValues k acc).map (fun v => v ++ [x])
      else findValues k acc := by
  induction acc with
  | nil => simp [findValues]
  | cons p rest ih =>
    simp only [List.map_cons]
    by_cases hpc : p.1 = c
    · by_cases hck : c = k
      · simp [findValues, hpc, hck, hpc.trans hck]
      · have hpk : ¬p.1 = k := fun hp => hck (hpc ▸ hp)
        simp [findValues, hpc, hck, hpk, ih]
    · by_cases hpk : p.1 = k
      · have hck : ¬c = k := fun hc => hpc (hpk.trans hc.symm)
        have hkc : ¬k = c := fun hc => hck hc.symm
        simp [findValues, hpc, hpk, hck, hkc]
      · simp [findValues, hpc, hpk, ih]

theorem findValues_some_of_any (acc : List (String × List ℚ)) (c : String)
    (h : acc.any (fun p => p.1 == c) = true) :
    ∃ v, findValues c acc = some v := by
  induction acc with
  | nil => simp at h
  | cons p rest ih =>
    by_cases hpc : p.1 = c
    · exact ⟨p.2, by simp [findValues, hpc]⟩
    · simp [List.any_cons, hpc] at h
      obtain ⟨v, hv⟩ := ih (by simpa [List.any_eq_true] using h)
      exact ⟨v, by simp [findValues, hpc, hv]⟩

theorem findValues_none_of_any (acc : List (String × List ℚ)) (c : String)
    (h : acc.any (fun p => p.1 == c) = false) :
    findValues c acc = none := by
  induction acc with
  | nil => rfl
  | cons p rest ih =>
    simp [List.any_cons] at h
    simp [findValues, h.1, ih (by simpa [List.any_eq_true] using h.2)]

theorem findValues_append_single (acc : List (String × List ℚ)) (k : String)
    (e : String × List ℚ) :
    findValues k (acc ++ [e]) =
      match findValues k acc with
      | some v => some v
      | none => if e.1 = k then some e.2 else none := by
  induction acc with
  | nil => simp [findValues]
  | cons p rest ih =>
    by_cases hpk : p.1 = k <;> simp [findValues, hpk, ih]

theorem findValues_addSample (acc : List (String × List ℚ)) (t : Telemetry)
    (k : String) :
    findValues k (addSample acc t) =
      if t.kpiId = k then optAppend (findValues k acc) [t.value]
      else findValues k acc := by
  unfold addSample
  by_cases h : acc.any (fun p => p.1 == t.kpiId)
  · rw [if_pos h, findValues_update]
    by_cases hk : t.kpiId = k
    · rw [if_pos hk, if_pos hk]
      obtain ⟨v, hv⟩ := findValues_some_of_any acc k (hk ▸ h)
      rw [hv]
      rfl
    · rw [if_neg hk, if_neg hk]
  · rw [if_neg h, findValues_append_single]
    by_cases hk : t.kpiId = k
    · rw [findValues_none_of_any acc k (hk ▸ Bool.eq_false_iff.2 h)]
      simp [hk, optAppend]
    · cases hv : findValues k acc with
      | none => simp [hk, hv]
      | some v => simp [hk, hv]

theorem findValues_foldl (s : List Telemetry)
    (acc : List (String × List ℚ)) (k : String) :
    findValues k (s.foldl addSample acc) =
      optAppend (findValues k acc)
        ((s.filter (fun t => t.kpiId == k)).map Telemetry.value) := by
  induction s generalizing acc with
  | nil => simp
  | cons t ts ih =>
    rw [List.foldl_cons, ih, findValues_addSample]
    by_cases hk : t.kpiId = k
    · rw [if_pos hk, optAppend_snoc, List.filter_cons_of_pos (by simp [hk])]
      simp
    · rw [if_neg hk, List.filter_cons_of_neg (by simp [hk])]

/-- The values stored in the aggregates dict under key k are exactly the
values of the telemetry samples whose kpiId is k, in arrival order. -/
theorem findValues_aggregates (s : List Telemetry) (k : String) :
    findValues k (aggregates s) =
      optAppend none ((s.filter (fun t => t.kpiId == k)).map
        Telemetry.value) :=
  findValues_foldl s [] k

theorem findValues_of_mem (l : List (String × List ℚ))
    (hnd : (l.map Prod.fst).Nodup) (g : String × List ℚ) (hg : g ∈ l) :
    findValues g.1 l = some g.2 := by
  induction l with
  | nil => simp at hg
  | cons p rest ih =>
    rcases List.mem_cons.1 hg with hg | hg
    · simp [findValues, hg]
    · have hne : p.1 ≠ g.1 := by
        intro he
        exact (List.nodup_cons.1 hnd).1
          (he ▸ List.mem_map.2 ⟨g, hg, rfl⟩)
      simp [findValues, hne, ih (List.nodup_cons.1 hnd).2 hg]

/-- Every entry of the aggregates dict holds exactly the matching sample
values, and there is at least one of them. -/
theorem mem_aggregates_values (s : List Telemetry) (g : String × List ℚ)
    (hg : g ∈ aggregates s) :
    g.2 = (s.filter (fun t => t.kpiId == g.1)).map Telemetry.value ∧
      g.2 ≠ [] := by
  have hnd : ((aggregates s).map Prod.fst).Nodup := by
    rw [keys_aggregates]
    exact nodup_firstKeys _
  have h1 := findValues_of_mem (aggregates s) hnd g hg
  rw [findValues_aggregates] at h1
  cases hw : (s.filter (fun t => t.kpiId == g.1)).map Telemetry.value with
  | nil => rw [hw] at h1; simp [optAppend] at h1
  | cons x w =>
    rw [hw] at h1
    simp only [optAppend] at h1
    have h2 : g.2 = x :: w := (Option.some.inj h1).symm
    exact ⟨h2, by rw [h2]; exact List.cons_ne_nil x w⟩

theorem riskOf_true_iff (targets : List Target) (g : String × List ℚ) :
    riskOf targets g = true ↔
      ∃ v, (resultOf targets g).variance = some v ∧ v < 0 := by
  unfold riskOf
  cases h : (resultOf targets g).variance <;> simp [h]

/-- The alert status is risk exactly when some result row has negative
variance. -/
theorem status_risk_iff (vc : ValueCommit) (s : List Telemetry) :
    (process_realization vc s).2.status = "risk" ↔
      ∃ r ∈ (process_realization vc s).1.results,
        ∃ v, r.variance = some v ∧ v < 0 := by
  rw [alert_eq, results_eq]
  cases h : (aggregates s).any (riskOf vc.kpiTargets)
  · rw [if_neg (by simp [h])]
    constructor
    · intro hc
      exact absurd hc (by decide)
    · rintro ⟨r, hr, v, hv, hneg⟩
      obtain ⟨g, hg, rfl⟩ := List.mem_map.1 hr
      rw [List.any_eq_false] at h
      exact absurd ((riskOf_true_iff vc.kpiTargets g).2 ⟨v, hv, hneg⟩)
        (h g hg)
  · rw [if_pos (by simp [h])]
    constructor
    · intro _
      obtain ⟨g, hg, hrisk⟩ := List.any_eq_true.1 h
      obtain ⟨v, hv, hneg⟩ := (riskOf_true_iff vc.kpiTargets g).1 hrisk
      exact ⟨resultOf vc.kpiTargets g, List.mem_map.2 ⟨g, hg, rfl⟩,
        v, hv, hneg⟩
    · intro _
      rfl

theorem foldl_target_no_match (ts : List Target) (k : String)
    (acc : Option Target) (h : ∀ tg ∈ ts, tg.kpiId ≠ k) :
    ts.foldl (fun acc t => if t.kpiId = k then some t else acc) acc
      = acc := by
  induction ts generalizing acc with
  | nil => rfl
  | cons t ts ih =>
    rw [List.foldl_cons, if_neg (h t (List.mem_cons_self t ts))]
    exact ih _ (fun tg htg => h tg (List.mem_cons_of_mem t htg))

theorem lookupTarget_eq_none (ts : List Target) (k : String)
    (h : ∀ tg ∈ ts, tg.kpiId ≠ k) : lookupTarget ts k = none :=
  foldl_target_no_match ts k none h

/-- A matching target followed only by non-matching ones is the one the
dict lookup returns. -/
theorem lookupTarget_last (l1 l2 : List Target) (t : Target) (k : String)
    (hk : t.kpiId = k) (hlast : ∀ t2 ∈ l2, t2.kpiId ≠ k) :
    lookupTarget (l1 ++ t :: l2) k = some t := by
  unfold lookupTarget
  rw [List.foldl_append, List.foldl_cons, if_pos hk]
  exact foldl_target_no_match l2 k (some t) hlast

theorem results_map_kpiId (vc : ValueCommit) (s : List Telemetry) :
    (process_realization vc s).1.results.map KpiResult.kpiId =
      firstKeys (s.map Telemetry.kpiId) := by
  rw [results_eq, List.map_map, ← keys_aggregates]
  rfl

/-- C1: the returned RenewalAlert has status risk iff at least one emitted
KpiResult has negative variance; when risky the alert carries the fixed
advisory message, and when ok the message field is absent. -/
theorem C1_risk_status (vc : ValueCommit) (s : List Telemetry) :
    ((process_realization vc s).2.status = "risk" ↔
      ∃ r ∈ (process_realization vc s).1.results,
        ∃ v, r.variance = some v ∧ v < 0) ∧
    ((process_realization vc s).2.status = "risk" →
      (process_realization vc s).2.message =
        some "Value delivery below target for one or more KPIs") ∧
    ((process_realization vc s).2.status = "ok" →
      (process_realization vc s).2.message = none) := by
  refine ⟨status_risk_iff vc s, ?_, ?_⟩
  · rw [alert_eq]
    cases h : (aggregates s).any (riskOf vc.kpiTargets)
    · rw [if_neg (by simp [h])]
      intro hc
      exact absurd hc (by decide)
    · rw [if_pos (by simp [h])]
      intro _
      rfl
  · rw [alert_eq]
    cases h : (aggregates s).any (riskOf vc.kpiTargets)
    · rw [if_neg (by simp [h])]
      intro _
      rfl
    · rw [if_pos (by simp [h])]
      intro hc
      exact absurd hc (by decide)

/-- Witness for C1 on the second concrete scenario of the spec: a single
under-target KPI makes the message present. -/
theorem C1_risk_status_witness :
    (process_realization ⟨"vc", [⟨"revenue", 50000, "usd"⟩]⟩
        [⟨"revenue", "t1", 30000⟩]).2.message =
      some "Value delivery below target for one or more KPIs" :=
  (C1_risk_status ⟨"vc", [⟨"revenue", 50000, "usd"⟩]⟩
    [⟨"revenue", "t1", 30000⟩]).2.1 (by
      rw [alert_eq]
      norm_num [aggregates, addSample, riskOf, resultOf, lookupTarget])

/-- C2: the actualValue of every emitted KpiResult is the arithmetic mean
of all sample values sharing its kpiId, each sample counted once; a group
with a single sample yields the value of that sample. -/
theorem C2_actualValue_is_mean (vc : ValueCommit) (s : List Telemetry) :
    ∀ r ∈ (process_realization vc s).1.results,
      r.actualValue =
        ((s.filter (fun t => t.kpiId == r.kpiId)).map Telemetry.value).sum /
          (((s.filter (fun t => t.kpiId == r.kpiId)).map
            Telemetry.value).length : ℚ) ∧
      ∀ t0 : Telemetry, s.filter (fun t => t.kpiId == r.kpiId) = [t0] →
        r.actualValue = t0.value := by
  intro r hr
  rw [results_eq] at hr
  obtain ⟨g, hg, rfl⟩ := List.mem_map.1 hr
  obtain ⟨hv, -⟩ := mem_aggregates_values s g hg
  refine ⟨?_, ?_⟩
  · simp only [resultOf_kpiId, resultOf_actualValue]
    rw [← hv]
  · intro t0 ht0
    simp only [resultOf_kpiId, resultOf_actualValue] at ht0 ⊢
    rw [hv, ht0]
    simp

/-- Witness for C2 on the first concrete scenario of the spec: samples
10 and 20 for one KPI give mean 15. -/
theorem C2_actualValue_is_mean_witness :
    (⟨"time-saved", 15, some 15, some "percent", some 0⟩ : KpiResult) ∈
      (process_realization ⟨"vc", [⟨"time-saved", 15, "percent"⟩]⟩
        [⟨"time-saved", "t1", 10⟩, ⟨"time-saved", "t2", 20⟩]).1.results ∧
    ((15 : ℚ) =
      (([(⟨"time-saved", "t1", 10⟩ : Telemetry), ⟨"time-saved", "t2", 20⟩].filter
          (fun t => t.kpiId == "time-saved")).map Telemetry.value).sum /
        ((([(⟨"time-saved", "t1", 10⟩ : Telemetry), ⟨"time-saved", "t2", 20⟩].filter
          (fun t => t.kpiId == "time-saved")).map Telemetry.value).length : ℚ) ∧
      ∀ t0 : Telemetry,
        [(⟨"time-saved", "t1", 10⟩ : Telemetry), ⟨"time-saved", "t2", 20⟩].filter
          (fun t => t.kpiId == "time-saved") = [t0] →
        (15 : ℚ) = t0.value) :=
  ⟨by
    rw [results_eq]
    norm_num [aggregates, addSample, resultOf, lookupTarget],
   C2_actualValue_is_mean ⟨"vc", [⟨"time-saved", 15, "percent"⟩]⟩
    [⟨"time-saved", "t1", 10⟩, ⟨"time-saved", "t2", 20⟩]
    ⟨"time-saved", 15, some 15, some "percent", some 0⟩
    (by
      rw [results_eq]
      norm_num [aggregates, addSample, resultOf, lookupTarget])⟩

/-- C3: a result whose kpiId matches no target has variance, targetValue
and unit all absent, and risk status always requires some result with an
actual negative variance. -/
theorem C3_unmatched_kpi (vc : ValueCommit) (s : List Telemetry) :
    (∀ r ∈ (process_realization vc s).1.results,
      (∀ tg ∈ vc.kpiTargets, tg.kpiId ≠ r.kpiId) →
        r.variance = none ∧ r.targetValue = none ∧ r.unit = none) ∧
    ((process_realization vc s).2.status = "risk" →
      ∃ r ∈ (process_realization vc s).1.results,
        ∃ v, r.variance = some v ∧ v < 0) := by
  refine ⟨?_, (status_risk_iff vc s).1⟩
  intro r hr hno
  rw [results_eq] at hr
  obtain ⟨g, hg, rfl⟩ := List.mem_map.1 hr
  have hnone : lookupTarget vc.kpiTargets g.1 = none :=
    lookupTarget_eq_none _ _ (fun tg htg => hno tg htg)
  simp [hnone]

/-- Witness for C3: a sole telemetry sample with no target at all yields a
row with all three optional fields absent. -/
theorem C3_unmatched_kpi_witness :
    (⟨"a", 4, none, none, none⟩ : KpiResult).variance = none ∧
    (⟨"a", 4, none, none, none⟩ : KpiResult).targetValue = none ∧
    (⟨"a", 4, none, none, none⟩ : KpiResult).unit = none :=
  (C3_unmatched_kpi ⟨"vc", []⟩ [⟨"a", "t", 4⟩]).1
    ⟨"a", 4, none, none, none⟩
    (by
      rw [results_eq]
      norm_num [aggregates, addSample, resultOf, lookupTarget])
    (by simp)

/-- C4 counterexample: the report generatedAt does not reflect the time of
the call; it is the same hardcoded constant across distinct calls and
inputs. -/
theorem C4_counterexample :
    (process_realization ⟨"vcA", []⟩ []).1.generatedAt =
      (process_realization ⟨"vcB", [⟨"a", 1, "u"⟩]⟩
        [⟨"a", "t", 2⟩]).1.generatedAt ∧
    (process_realization ⟨"vcA", []⟩ []).1.generatedAt =
      "2025-11-17T00:00:00Z" :=
  ⟨rfl, rfl⟩

/-- C4 amended: calling the aggregator twice with identical inputs yields
identical outputs bit for bit, including generatedAt, which is the
hardcoded constant 2025-11-17T00:00:00Z rather than the call time. -/
theorem C4_idempotent (vc1 vc2 : ValueCommit) (s1 s2 : List Telemetry)
    (hv : vc1 = vc2) (hs : s1 = s2) :
    process_realization vc1 s1 = process_realization vc2 s2 ∧
    (process_realization vc1 s1).1.generatedAt = "2025-11-17T00:00:00Z" := by
  subst hv hs
  exact ⟨rfl, rfl⟩

/-- Witness for C4 amended at a concrete input. -/
theorem C4_idempotent_witness :
    process_realization ⟨"vc", [⟨"a", 1, "u"⟩]⟩ [⟨"a", "t", 2⟩] =
      process_realization ⟨"vc", [⟨"a", 1, "u"⟩]⟩ [⟨"a", "t", 2⟩] ∧
    (process_realization ⟨"vc", [⟨"a", 1, "u"⟩]⟩
      [⟨"a", "t", 2⟩]).1.generatedAt = "2025-11-17T00:00:00Z" :=
  C4_idempotent ⟨"vc", [⟨"a", 1, "u"⟩]⟩ ⟨"vc", [⟨"a", 1, "u"⟩]⟩
    [⟨"a", "t", 2⟩] [⟨"a", "t", 2⟩] rfl rfl

/-- C5: every result kpiId is observed in the telemetry, so a target with
zero telemetry produces no result row. -/
theorem C5_results_per_observed (vc : ValueCommit) (s : List Telemetry) :
    (∀ r ∈ (process_realization vc s).1.results,
      ∃ t ∈ s, t.kpiId = r.kpiId) ∧
    (∀ tg ∈ vc.kpiTargets, (∀ t ∈ s, t.kpiId ≠ tg.kpiId) →
      ∀ r ∈ (process_realization vc s).1.results, r.kpiId ≠ tg.kpiId) := by
  have hmain : ∀ r ∈ (process_realization vc s).1.results,
      ∃ t ∈ s, t.kpiId = r.kpiId := by
    intro r hr
    rw [results_eq] at hr
    obtain ⟨g, hg, rfl⟩ := List.mem_map.1 hr
    have hk : g.1 ∈ (aggregates s).map Prod.fst :=
      List.mem_map.2 ⟨g, hg, rfl⟩
    rw [keys_aggregates, mem_firstKeys] at hk
    obtain ⟨t, ht, hteq⟩ := List.mem_map.1 hk
    exact ⟨t, ht, hteq⟩
  refine ⟨hmain, ?_⟩
  intro tg htg hno r hr heq
  obtain ⟨t, ht, hteq⟩ := hmain r hr
  exact hno t ht (hteq.trans heq)

/-- Witness for C5: the sole result of a one-sample run has an observed
kpiId. -/
theorem C5_results_per_observed_witness :
    ∃ t ∈ [(⟨"a", "t1", 4⟩ : Telemetry)], t.kpiId = "a" :=
  (C5_results_per_observed ⟨"vc", []⟩ [⟨"a", "t1", 4⟩]).1
    ⟨"a", 4, none, none, none⟩
    (by
      rw [results_eq]
      norm_num [aggregates, addSample, resultOf, lookupTarget])

/-- C6: the aggregator is a total function of its inputs, and every group
in the aggregates dict is nonempty, so the mean denominator is never
zero. -/
theorem C6_total_no_div_by_zero (vc : ValueCommit) (s : List Telemetry) :
    (∃ out, process_realization vc s = out) ∧
    ∀ g ∈ aggregates s, g.2 ≠ [] ∧ 0 < g.2.length ∧
      ((g.2.length : ℚ) ≠ 0) := by
  refine ⟨⟨process_realization vc s, rfl⟩, ?_⟩
  intro g hg
  obtain ⟨-, hne⟩ := mem_aggregates_values s g hg
  have hpos : 0 < g.2.length := List.length_pos.2 hne
  exact ⟨hne, hpos, by exact_mod_cast hpos.ne'⟩

/-- Witness for C6 at a one-sample input. -/
theorem C6_total_no_div_by_zero_witness :
    ("a", [(4 : ℚ)]).2 ≠ [] ∧ 0 < ("a", [(4 : ℚ)]).2.length ∧
      ((("a", [(4 : ℚ)]).2.length : ℚ) ≠ 0) :=
  (C6_total_no_div_by_zero ⟨"vc", []⟩ [⟨"a", "t1", 4⟩]).2 ("a", [4])
    (by simp [aggregates, addSample])

/-- C7: exactly one result per distinct observed kpiId, in first-observed
order of the telemetry sequence. -/
theorem C7_one_result_per_kpi (vc : ValueCommit) (s : List Telemetry) :
    (process_realization vc s).1.results.map KpiResult.kpiId =
      firstKeys (s.map Telemetry.kpiId) ∧
    ((process_realization vc s).1.results.map KpiResult.kpiId).Nodup ∧
    ∀ k : String,
      k ∈ (process_realization vc s).1.results.map KpiResult.kpiId ↔
        k ∈ s.map Telemetry.kpiId := by
  refine ⟨results_map_kpiId vc s, ?_, ?_⟩
  · rw [results_map_kpiId]
    exact nodup_firstKeys _
  · intro k
    rw [results_map_kpiId]
    exact mem_firstKeys k _

/-- C8: an empty telemetry sequence yields an empty result sequence and an
ok alert with no message, whatever the targets. -/
theorem C8_empty_samples (vc : ValueCommit) :
    (process_realization vc []).1.results = [] ∧
    (process_realization vc []).2 = ⟨"ok", none⟩ :=
  ⟨rfl, rfl⟩

/-- C9: the report id and generatedAt are the hardcoded constants
auto-generated and 2025-11-17T00:00:00Z on every input. -/
theorem C9_constant_id_generatedAt (vc : ValueCommit) (s : List Telemetry) :
    (process_realization vc s).1.id = "auto-generated" ∧
    (process_realization vc s).1.generatedAt = "2025-11-17T00:00:00Z" :=
  ⟨rfl, rfl⟩

/-- C10: with duplicate kpiIds among the targets, the last entry in the
sequence supplies targetValue and unit for matching results. -/
theorem C10_last_target_wins (vc : ValueCommit) (s : List Telemetry)
    (r : KpiResult) (hr : r ∈ (process_realization vc s).1.results)
    (l1 l2 : List Target) (t : Target)
    (hsplit : vc.kpiTargets = l1 ++ t :: l2)
    (hk : t.kpiId = r.kpiId)
    (hlast : ∀ t2 ∈ l2, t2.kpiId ≠ r.kpiId) :
    r.targetValue = some t.targetValue ∧ r.unit = some t.unit ∧
      r.variance = some (r.actualValue - t.targetValue) := by
  rw [results_eq] at hr
  obtain ⟨g, hg, rfl⟩ := List.mem_map.1 hr
  have hlk : lookupTarget vc.kpiTargets g.1 = some t := by
    rw [hsplit]
    exact lookupTarget_last l1 l2 t g.1 hk hlast
  simp [hlk]

/-- Witness for C10: two targets share kpiId a; the result uses the later
entry, targetValue 2 and unit u2. -/
theorem C10_last_target_wins_witness :
    (⟨"a", 5, some 2, some "u2", some 3⟩ : KpiResult).targetValue =
      some 2 ∧
    (⟨"a", 5, some 2, some "u2", some 3⟩ : KpiResult).unit = some "u2" ∧
    (⟨"a", 5, some 2, some "u2", some 3⟩ : KpiResult).variance =
      some ((5 : ℚ) - 2) :=
  C10_last_target_wins ⟨"vc", [⟨"a", 1, "u1"⟩, ⟨"a", 2, "u2"⟩]⟩
    [⟨"a", "t", 5⟩] ⟨"a", 5, some 2, some "u2", some 3⟩
    (by
      rw [results_eq]
      norm_num [aggregates, addSample, resultOf, lookupTarget])
    [⟨"a", 1, "u1"⟩] [] ⟨"a", 2, "u2"⟩ rfl rfl (by simp)

end ValueCanvas
